import Mathlib

/-!
# Room allocation and message fan-out of the websocket chat server

A shallow embedding of `websocket_chat/main.go`: the room pool, `FindChatRoom`,
`ChatRoom.leave`, the two broadcast functions and the three pieces of
`handleConnection` that touch a room (the match notice, the read loop body and
the deferred cleanup), followed by the properties proved about them.

Modelling conventions.

* A `*Client` is a value: the fields `Id`, `Language` and `Send` are never
  assigned after the client is built, so sharing a pointer and copying the record
  cannot be told apart.  The field `Conn` (the transport) is left out.
* A channel is a handle (`Client.Send : Nat`); what has been sent on each channel
  is kept in a store `Mailboxes`.  A send `ch <- m` appends `m` to the history of
  `ch`: the channel is drained by the goroutine `readMessages`, which runs until
  the channel is closed, so a send to a member always completes.
* `sync.Mutex` is one boolean, `true` when held.  `Lock` on a held mutex does not
  return.  Every `Unlock` of the program is issued by the goroutine that issued
  the matching `Lock`, so inside one sequential run nobody else can release the
  mutex: an operation that reaches `Lock` on a held mutex is blocked for good,
  and the model returns `none` for it.
* `time.Now()` and `json.Unmarshal` are parameters.  `conn.Close()`, `close(client.Send)`
  and the logging calls have no effect on rooms or mailboxes and are left out.
* A Go map is an `AList`: a list of entries with pairwise distinct keys.  The order of
  the entries stands for the iteration order of the map, which no statement depends on.
-/

namespace WebsocketChat

deriving instance DecidableEq for Except

/-- Client identifier, `uuid.UUID` in the source (sixteen bytes).  Natural numbers
contain every such value. -/
abbrev UUID := Nat

/-- Source constant `MaxChatRoomSize`, line 15. -/
def MaxChatRoomSize : Nat := 2

/-- Source constant `NumberOfChatRooms`, line 16. -/
def NumberOfChatRooms : Nat := 1000

/-- Source constant `EMPTY`, line 17: the language of a room nobody is in. -/
def EMPTY : String := "empty"

/-- Source constant `LeaveMessage`, line 18. -/
def LeaveMessage : String := "LEAVE"

/-- Source constant `MatchMessage`, line 19. -/
def MatchMessage : String := "MATCH"

/-- Source constant `ChatMessage`, line 20. -/
def ChatMessage : String := "CHAT"

/-- Source constant `ConnectMessage`, line 21. -/
def ConnectMessage : String := "CONNECT"

/-- Source type `Message`, lines 23-28.  `Timestamp` is a clock reading. -/
structure Message where
  Sender : UUID
  Timestamp : Nat
  Body : String
  MessageType : String
deriving DecidableEq, Repr

/-- The zero value of `Message`, what `var message Message` declares (line 170). -/
def Message.zero : Message := ⟨0, 0, "", ""⟩

/-- Source type `Client`, lines 30-35, without `Conn`.  `Send` is the handle of the
client's channel. -/
structure Client where
  Id : UUID
  Language : String
  Send : Nat
deriving DecidableEq, Repr

/-- A Go `map[uuid.UUID]*Client`: a finite map with unique keys. -/
abbrev MemberMap := AList (fun _ : UUID => Client)

/-- Two maps are equal when their entry lists are; this instance evaluates by
comparing the lists. -/
instance instDecidableEqMemberMap : DecidableEq MemberMap := fun s t =>
  decidable_of_iff (s.entries = t.entries) ⟨AList.ext, fun h => congrArg AList.entries h⟩

/-- Source type `ChatRoom`, lines 37-41.  `Lock` is `true` while the mutex is held. -/
structure ChatRoom where
  Members : MemberMap
  Language : String
  Lock : Bool
deriving DecidableEq

/-- Go `sync.Mutex.Lock`: succeeds on a free mutex, never returns on a held one. -/
def Mutex.Lock (held : Bool) : Option Bool := if held then none else some true

/-- Go `sync.Mutex.Unlock`. -/
def Mutex.Unlock (_held : Bool) : Bool := false

/-- History of every channel: the messages sent on it, oldest first. -/
abbrev Mailboxes := Nat → List Message

/-- Go `ch <- m`. -/
def chanSend (mb : Mailboxes) (ch : Nat) (m : Message) : Mailboxes :=
  fun c => if c = ch then mb c ++ [m] else mb c

/-- The pool built by `main`, lines 187-189, for a pool of `n` rooms
(`NumberOfChatRooms` in the source). -/
def initPool (n : Nat) : List ChatRoom :=
  List.replicate n ⟨∅, EMPTY, false⟩

/-- The loop of `FindChatRoom`, lines 47-61, over the rooms from index `i` on.
The result `Except.ok j` stands for the pointer to room `j` of the pool,
`Except.error` for the error of line 63. -/
def FindChatRoom.loop : List ChatRoom → Nat → Client →
    Option (List ChatRoom × Except String Nat)
  | [], _, _ => some ([], Except.error "could not find a chat room")
  | chatRoom :: rest, i, client =>
    match Mutex.Lock chatRoom.Lock with
    | none => none
    | some held =>
      if chatRoom.Members.entries.length < MaxChatRoomSize ∧
          (chatRoom.Language = client.Language ∨ chatRoom.Language = EMPTY) then
        let members := chatRoom.Members.insert client.Id client
        let language := if chatRoom.Language = EMPTY then client.Language else chatRoom.Language
        some (⟨members, language, Mutex.Unlock held⟩ :: rest, Except.ok i)
      else
        match FindChatRoom.loop rest (i + 1) client with
        | none => none
        | some (rest', r) =>
          some (⟨chatRoom.Members, chatRoom.Language, Mutex.Unlock held⟩ :: rest', r)

/-- Source function `FindChatRoom`, lines 45-65, with the pool `ChatRooms` as an
argument. -/
def FindChatRoom (pool : List ChatRoom) (client : Client) :
    Option (List ChatRoom × Except String Nat) :=
  FindChatRoom.loop pool 0 client

/-- Source method `ChatRoom.leave`, lines 85-92. -/
def ChatRoom.leave (cr : ChatRoom) (client : Client) : Option ChatRoom :=
  match Mutex.Lock cr.Lock with
  | none => none
  | some held =>
    let members := cr.Members.erase client.Id
    let language := if members.entries.length = 0 then EMPTY else cr.Language
    some ⟨members, language, Mutex.Unlock held⟩

/-- Source method `ChatRoom.broadcastMessage`, lines 67-73.  It takes no lock. -/
def ChatRoom.broadcastMessage (cr : ChatRoom) (mb : Mailboxes) (message : Message) :
    Mailboxes :=
  cr.Members.entries.foldl
    (fun acc member => if member.2.Id ≠ message.Sender then chanSend acc member.2.Send message
      else acc) mb

/-- Source method `ChatRoom.broadcast`, lines 94-100. -/
def ChatRoom.broadcast (cr : ChatRoom) (mb : Mailboxes) (message : Message) :
    Option (ChatRoom × Mailboxes) :=
  match Mutex.Lock cr.Lock with
  | none => none
  | some held =>
    let mb' := cr.Members.entries.foldl (fun acc v => chanSend acc v.2.Send message) mb
    some (⟨cr.Members, cr.Language, Mutex.Unlock held⟩, mb')

/-- Statements of `handleConnection` after the room is obtained, lines 153-157. -/
def handleConnection.matchNotice (chatRoom : ChatRoom) (mb : Mailboxes) (client : Client)
    (now : Nat) : Option (ChatRoom × Mailboxes) :=
  match Mutex.Lock chatRoom.Lock with
  | none => none
  | some held =>
    let locked : ChatRoom := ⟨chatRoom.Members, chatRoom.Language, held⟩
    let after :=
      if locked.Members.entries.length > 1 then
        locked.broadcast mb ⟨client.Id, now, "You've been matched", MatchMessage⟩
      else some (locked, mb)
    match after with
    | none => none
    | some (cr, mb') => some (⟨cr.Members, cr.Language, Mutex.Unlock cr.Lock⟩, mb')

/-- One turn of the read loop of `handleConnection`, lines 159-181.  `read` is the
outcome of `conn.ReadMessage()`: `none` for an error, `some msg` for a payload.
`Unmarshal msg` gives what `json.Unmarshal` leaves in the fresh variable `message`
and whether it reported an error.  The boolean of the result tells whether the loop
goes on to the next read. -/
def handleConnection.readLoopIteration (Unmarshal : String → Message × Bool)
    (chatRoom : ChatRoom) (mb : Mailboxes) (read : Option String) :
    Option (Bool × ChatRoom × Mailboxes) :=
  match read with
  | none => some (false, chatRoom, mb)
  | some msg =>
    let message := (Unmarshal msg).1
    match chatRoom.broadcast mb message with
    | none => none
    | some (cr, mb') => some (true, cr, mb')

/-- The deferred function of `handleConnection`, lines 143-148, between the two
closes: `leave`, then `broadcast` of the leave notice. -/
def handleConnection.cleanup (chatRoom : ChatRoom) (mb : Mailboxes) (client : Client)
    (now : Nat) : Option (ChatRoom × Mailboxes) :=
  match chatRoom.leave client with
  | none => none
  | some cr => cr.broadcast mb ⟨client.Id, now, "client left", LeaveMessage⟩

/-- The admission predicate of `FindChatRoom`, as the specification words it: the
room has spare capacity and its language is the client's or the room is unassigned. -/
def Eligible (cr : ChatRoom) (client : Client) : Prop :=
  cr.Members.entries.length < 2 ∧ (cr.Language = client.Language ∨ cr.Language = EMPTY)

instance instDecidableEligible (cr : ChatRoom) (client : Client) :
    Decidable (Eligible cr client) :=
  inferInstanceAs (Decidable (_ ∧ _))

/-- States of the pool of `n` rooms that calls of `FindChatRoom` and `leave` can
produce from the pool built by `main`.  `adm` restricts the clients passed to
`FindChatRoom`; `leave` is called on any room with any client. -/
inductive ReachableOver (adm : Client → Prop) (n : Nat) : List ChatRoom → Prop
  | init : ReachableOver adm n (initPool n)
  | find (pool pool' : List ChatRoom) (r : Except String Nat) (client : Client) :
      ReachableOver adm n pool → adm client → FindChatRoom pool client = some (pool', r) →
      ReachableOver adm n pool'
  | leave (pool : List ChatRoom) (i : Nat) (cr cr' : ChatRoom) (client : Client) :
      ReachableOver adm n pool → pool[i]? = some cr → cr.leave client = some cr' →
      ReachableOver adm n (pool.set i cr')

/-- Reachable states, with arbitrary clients. -/
def Reachable (n : Nat) (pool : List ChatRoom) : Prop :=
  ReachableOver (fun _ => True) n pool

/-- What one call of `FindChatRoom` for `client` can do to a single room: nothing,
lock and unlock it, or admit the client. -/
def RoomStep (client : Client) (cr cr' : ChatRoom) : Prop :=
  cr' = cr ∨ cr' = ⟨cr.Members, cr.Language, false⟩ ∨
    (cr.Members.entries.length < MaxChatRoomSize ∧
      (cr.Language = client.Language ∨ cr.Language = EMPTY) ∧
      cr' = ⟨cr.Members.insert client.Id client,
        if cr.Language = EMPTY then client.Language else cr.Language, false⟩)

/-! ## Concrete clients and rooms used as inputs -/

/-- A client declaring "en". -/
def clientA : Client := ⟨1, "en", 10⟩

/-- A second client declaring "en". -/
def clientB : Client := ⟨2, "en", 20⟩

/-- A third client declaring "en". -/
def clientC : Client := ⟨3, "en", 30⟩

/-- A client declaring "fr". -/
def clientD : Client := ⟨4, "fr", 40⟩

/-- Room 0 with `clientA` alone. -/
def roomA : ChatRoom := ⟨AList.insert 1 clientA ∅, "en", false⟩

/-- Room 0 with `clientA` and `clientB`. -/
def roomAB : ChatRoom := ⟨AList.insert 2 clientB (AList.insert 1 clientA ∅), "en", false⟩

/-- The channels of the members of a room, in map order. -/
def ChatRoom.channels (cr : ChatRoom) : List Nat :=
  cr.Members.entries.map (fun e => e.2.Send)

/-- A client declaring the string "empty". -/
def clientE : Client := ⟨5, "empty", 50⟩

/-- Room 0 after `clientE` alone was admitted to the empty room. -/
def roomE : ChatRoom := ⟨AList.insert 5 clientE ∅, "empty", false⟩

/-- Room 0 after `clientE`, then `clientD`, were admitted. -/
def roomED : ChatRoom := ⟨AList.insert 4 clientD (AList.insert 5 clientE ∅), "fr", false⟩

/-- A chat message whose sender is `clientA`. -/
def chatFromA : Message := ⟨1, 7, "hi", ChatMessage⟩

/-- A decoder that reads every payload as `chatFromA`, without error. -/
def decodeChatFromA : String → Message × Bool := fun _ => (chatFromA, false)

/-- A decoder that fails on every payload and leaves the message at its zero value,
as `json.Unmarshal` does on bytes that are not JSON. -/
def decodeFailure : String → Message × Bool := fun _ => (Message.zero, true)

/-- Mailboxes with nothing sent yet. -/
def noMail : Mailboxes := fun _ => []

/-- The first statement of the match step alone, line 153: the room as the other
goroutines see it while the handler is between line 153 and line 157. -/
def handleConnection.matchNoticeEntry (chatRoom : ChatRoom) : Option ChatRoom :=
  match Mutex.Lock chatRoom.Lock with
  | none => none
  | some held => some ⟨chatRoom.Members, chatRoom.Language, held⟩

/-- Room 0 with `clientA` and `clientB`, its mutex held. -/
def roomABHeld : ChatRoom := ⟨AList.insert 2 clientB (AList.insert 1 clientA ∅), "en", true⟩

/-! ## Auxiliary facts -/

theorem length_insert_le (m : MemberMap) (k : UUID) (c : Client) :
    (m.insert k c).entries.length ≤ m.entries.length + 1 := by
  rw [AList.insert_entries, List.length_cons]
  exact Nat.succ_le_succ (List.kerase_sublist k m.entries).length_le

theorem length_erase_le (m : MemberMap) (k : UUID) :
    (m.erase k).entries.length ≤ m.entries.length :=
  (List.kerase_sublist k m.entries).length_le

theorem FindChatRoom.loop_nil (i : Nat) (client : Client) :
    FindChatRoom.loop [] i client = some ([], Except.error "could not find a chat room") := by
  simp [FindChatRoom.loop]

theorem FindChatRoom.loop_cons_held (cr : ChatRoom) (rest : List ChatRoom) (i : Nat)
    (client : Client) (hl : cr.Lock = true) :
    FindChatRoom.loop (cr :: rest) i client = none := by
  simp [FindChatRoom.loop, Mutex.Lock, hl]

theorem FindChatRoom.loop_cons_admitted (cr : ChatRoom) (rest : List ChatRoom) (i : Nat)
    (client : Client) (hl : cr.Lock = false)
    (hc : cr.Members.entries.length < MaxChatRoomSize ∧
      (cr.Language = client.Language ∨ cr.Language = EMPTY)) :
    FindChatRoom.loop (cr :: rest) i client =
      some (⟨cr.Members.insert client.Id client,
        if cr.Language = EMPTY then client.Language else cr.Language, false⟩ :: rest,
        Except.ok i) := by
  simp [FindChatRoom.loop, Mutex.Lock, Mutex.Unlock, hl, hc]

theorem FindChatRoom.loop_cons_skip (cr : ChatRoom) (rest : List ChatRoom) (i : Nat)
    (client : Client) (hl : cr.Lock = false)
    (hc : ¬ (cr.Members.entries.length < MaxChatRoomSize ∧
      (cr.Language = client.Language ∨ cr.Language = EMPTY))) :
    FindChatRoom.loop (cr :: rest) i client =
      (FindChatRoom.loop rest (i + 1) client).map
        (fun p => (⟨cr.Members, cr.Language, false⟩ :: p.1, p.2)) := by
  rw [FindChatRoom.loop]
  simp only [Mutex.Lock, hl, Mutex.Unlock, if_neg hc]
  cases FindChatRoom.loop rest (i + 1) client <;> simp

theorem FindChatRoom.loop_forall₂ (client : Client) :
    ∀ (pool : List ChatRoom) (i : Nat) (pool' : List ChatRoom) (r : Except String Nat),
      FindChatRoom.loop pool i client = some (pool', r) →
      List.Forall₂ (RoomStep client) pool pool' := by
  intro pool
  induction pool with
  | nil =>
    intro i pool' r h
    rw [FindChatRoom.loop_nil] at h
    simp only [Option.some.injEq, Prod.mk.injEq] at h
    rw [← h.1]
    exact List.Forall₂.nil
  | cons cr rest ih =>
    intro i pool' r h
    cases hl : cr.Lock with
    | true => rw [FindChatRoom.loop_cons_held cr rest i client hl] at h; cases h
    | false =>
      by_cases hc : cr.Members.entries.length < MaxChatRoomSize ∧
          (cr.Language = client.Language ∨ cr.Language = EMPTY)
      · rw [FindChatRoom.loop_cons_admitted cr rest i client hl hc] at h
        simp only [Option.some.injEq, Prod.mk.injEq] at h
        rw [← h.1]
        refine List.Forall₂.cons (Or.inr (Or.inr ⟨hc.1, hc.2, rfl⟩)) ?_
        exact List.forall₂_same.mpr (fun x _ => Or.inl rfl)
      · rw [FindChatRoom.loop_cons_skip cr rest i client hl hc] at h
        cases hr : FindChatRoom.loop rest (i + 1) client with
        | none => simp [hr] at h
        | some p =>
          obtain ⟨rest', r'⟩ := p
          simp only [hr, Option.map_some', Option.some.injEq, Prod.mk.injEq] at h
          rw [← h.1]
          exact List.Forall₂.cons (Or.inr (Or.inl rfl)) (ih (i + 1) rest' r' hr)

theorem FindChatRoom.loop_preserves (I : ChatRoom → Prop) (client : Client)
    (hI : ∀ cr cr', I cr → RoomStep client cr cr' → I cr')
    (pool : List ChatRoom) (i : Nat) (pool' : List ChatRoom) (r : Except String Nat)
    (h : FindChatRoom.loop pool i client = some (pool', r))
    (hpool : ∀ cr ∈ pool, I cr) : ∀ cr ∈ pool', I cr := by
  have h2 := FindChatRoom.loop_forall₂ client pool i pool' r h
  clear h
  induction h2 with
  | nil => simp
  | cons hab _ ih =>
    intro cr hcr
    rcases List.mem_cons.mp hcr with rfl | hmem
    · exact hI _ _ (hpool _ (List.mem_cons_self _ _)) hab
    · exact ih (fun c hc => hpool c (List.mem_cons_of_mem _ hc)) cr hmem

theorem ChatRoom.leave_free (cr : ChatRoom) (client : Client) (hl : cr.Lock = false) :
    cr.leave client =
      some ⟨cr.Members.erase client.Id,
        if (cr.Members.erase client.Id).entries.length = 0 then EMPTY else cr.Language,
        false⟩ := by
  simp [ChatRoom.leave, Mutex.Lock, Mutex.Unlock, hl]

theorem ChatRoom.leave_held (cr : ChatRoom) (client : Client) (hl : cr.Lock = true) :
    cr.leave client = none := by
  simp [ChatRoom.leave, Mutex.Lock, hl]

theorem ChatRoom.leave_eq_some {cr cr' : ChatRoom} {client : Client}
    (h : cr.leave client = some cr') :
    cr.Lock = false ∧ cr' = ⟨cr.Members.erase client.Id,
        if (cr.Members.erase client.Id).entries.length = 0 then EMPTY else cr.Language,
        false⟩ := by
  cases hl : cr.Lock with
  | true => rw [ChatRoom.leave_held cr client hl] at h; cases h
  | false =>
    rw [ChatRoom.leave_free cr client hl] at h
    exact ⟨rfl, (Option.some.inj h).symm⟩

/-- A property of single rooms that holds of the empty room and is kept by each
room step of `FindChatRoom` and by `leave` holds of every room of every reachable
pool. -/
theorem ReachableOver.forall_rooms (adm : Client → Prop) (I : ChatRoom → Prop)
    (hinit : I ⟨∅, EMPTY, false⟩)
    (hfind : ∀ client cr cr', adm client → I cr → RoomStep client cr cr' → I cr')
    (hleave : ∀ client cr cr', I cr → cr.leave client = some cr' → I cr')
    {n : Nat} {pool : List ChatRoom} (h : ReachableOver adm n pool) : ∀ cr ∈ pool, I cr := by
  induction h with
  | init =>
    intro cr hcr
    rw [initPool, List.mem_replicate] at hcr
    rw [hcr.2]
    exact hinit
  | find pool pool' r client _ hadm hf ih =>
    exact FindChatRoom.loop_preserves I client (fun cr cr' => hfind client cr cr' hadm)
      pool 0 pool' r hf ih
  | leave pool i cr cr' client _ hget hlv ih =>
    intro x hx
    rcases List.mem_or_eq_of_mem_set hx with hmem | rfl
    · exact ih x hmem
    · exact hleave client cr x (ih cr (List.getElem?_mem hget)) hlv

/-- In a reachable pool no mutex is held. -/
theorem ReachableOver.lock_free (adm : Client → Prop) {n : Nat} {pool : List ChatRoom}
    (h : ReachableOver adm n pool) : ∀ cr ∈ pool, cr.Lock = false := by
  refine ReachableOver.forall_rooms adm (fun cr => cr.Lock = false) rfl ?_ ?_ h
  · intro client cr cr' _ hcr hstep
    rcases hstep with rfl | rfl | ⟨_, _, rfl⟩
    · exact hcr
    · rfl
    · rfl
  · intro client cr cr' _ hlv
    rw [(ChatRoom.leave_eq_some hlv).2]

/-- With every mutex free, `FindChatRoom` returns. -/
theorem FindChatRoom.loop_returns (client : Client) :
    ∀ (pool : List ChatRoom) (i : Nat), (∀ cr ∈ pool, cr.Lock = false) →
      ∃ pool' r, FindChatRoom.loop pool i client = some (pool', r) := by
  intro pool
  induction pool with
  | nil => intro i _; exact ⟨_, _, FindChatRoom.loop_nil i client⟩
  | cons cr rest ih =>
    intro i hfree
    have hl := hfree cr (List.mem_cons_self _ _)
    by_cases hc : cr.Members.entries.length < MaxChatRoomSize ∧
        (cr.Language = client.Language ∨ cr.Language = EMPTY)
    · exact ⟨_, _, FindChatRoom.loop_cons_admitted cr rest i client hl hc⟩
    · obtain ⟨rest', r, hr⟩ := ih (i + 1) (fun c hc' => hfree c (List.mem_cons_of_mem _ hc'))
      refine ⟨⟨cr.Members, cr.Language, false⟩ :: rest', r, ?_⟩
      rw [FindChatRoom.loop_cons_skip cr rest i client hl hc, hr]
      rfl

/-- From a reachable pool every call of `FindChatRoom` returns, so the reachable
states are not cut short by a blocked call. -/
theorem Reachable.find_returns {n : Nat} {pool : List ChatRoom} (h : Reachable n pool)
    (client : Client) : ∃ pool' r, FindChatRoom pool client = some (pool', r) :=
  FindChatRoom.loop_returns client pool 0 (ReachableOver.lock_free _ h)

/-- From a reachable pool every call of `leave` returns. -/
theorem Reachable.leave_returns {n : Nat} {pool : List ChatRoom} (h : Reachable n pool)
    (cr : ChatRoom) (hcr : cr ∈ pool) (client : Client) : ∃ cr', cr.leave client = some cr' :=
  ⟨_, ChatRoom.leave_free cr client (ReachableOver.lock_free _ h cr hcr)⟩

theorem reachable_roomA : Reachable 1 [roomA] :=
  ReachableOver.find (initPool 1) [roomA] (Except.ok 0) clientA ReachableOver.init trivial
    (by decide)

theorem reachable_roomAB : Reachable 1 [roomAB] :=
  ReachableOver.find [roomA] [roomAB] (Except.ok 0) clientB reachable_roomA trivial (by decide)

/-! ## C1: capacity -/

/-- C1. Capacity invariant: in every state reachable from the initial pool of any
size by calls of `FindChatRoom` and `leave` with arbitrary clients, every room has at
most `MaxChatRoomSize` members. -/
theorem capacity_invariant (n : Nat) (pool : List ChatRoom) (h : Reachable n pool) :
    ∀ cr ∈ pool, cr.Members.entries.length ≤ MaxChatRoomSize := by
  refine ReachableOver.forall_rooms _ (fun cr => cr.Members.entries.length ≤ MaxChatRoomSize)
    (by decide) ?_ ?_ h
  · intro client cr cr' _ hcr hstep
    rcases hstep with rfl | rfl | ⟨hlt, _, rfl⟩
    · exact hcr
    · exact hcr
    · exact le_trans (length_insert_le _ _ _) hlt
  · intro client cr cr' hcr hlv
    rw [(ChatRoom.leave_eq_some hlv).2]
    exact le_trans (length_erase_le _ _) hcr

/-- The capacity invariant at the pool of one room holding two clients. -/
theorem capacity_invariant_witness :
    Reachable 1 [roomAB] ∧ ∀ cr ∈ [roomAB], cr.Members.entries.length ≤ MaxChatRoomSize :=
  ⟨reachable_roomAB, capacity_invariant 1 [roomAB] reachable_roomAB⟩

/-! ## C4: first fit -/

theorem ChatRoom.eta_free (cr : ChatRoom) (hl : cr.Lock = false) :
    (⟨cr.Members, cr.Language, false⟩ : ChatRoom) = cr := by
  cases cr
  simp only at hl
  subst hl
  rfl

theorem FindChatRoom.loop_none_eligible (client : Client) :
    ∀ (pool : List ChatRoom) (i : Nat), (∀ cr ∈ pool, cr.Lock = false) →
      (∀ cr ∈ pool, ¬ Eligible cr client) →
      FindChatRoom.loop pool i client = some (pool, Except.error "could not find a chat room") := by
  intro pool
  induction pool with
  | nil => intro i _ _; exact FindChatRoom.loop_nil i client
  | cons cr rest ih =>
    intro i hfree hno
    have hl := hfree cr (List.mem_cons_self _ _)
    have hc : ¬ (cr.Members.entries.length < MaxChatRoomSize ∧
        (cr.Language = client.Language ∨ cr.Language = EMPTY)) := hno cr (List.mem_cons_self _ _)
    rw [FindChatRoom.loop_cons_skip cr rest i client hl hc,
      ih (i + 1) (fun c hc' => hfree c (List.mem_cons_of_mem _ hc'))
        (fun c hc' => hno c (List.mem_cons_of_mem _ hc'))]
    simp only [Option.map_some', ChatRoom.eta_free cr hl]

theorem language_after_admission (cr : ChatRoom) (client : Client) (h : Eligible cr client) :
    (if cr.Language = EMPTY then client.Language else cr.Language) = client.Language := by
  split_ifs with he
  · rfl
  · rcases h.2 with h1 | h1
    · exact h1
    · exact absurd h1 he

theorem FindChatRoom.loop_first_fit (client : Client) :
    ∀ (pool : List ChatRoom) (i : Nat), (∀ cr ∈ pool, cr.Lock = false) →
      (∃ cr ∈ pool, Eligible cr client) →
      ∃ k cr, pool[k]? = some cr ∧ Eligible cr client ∧
        (∀ j cr', j < k → pool[j]? = some cr' → ¬ Eligible cr' client) ∧
        FindChatRoom.loop pool i client =
          some (pool.set k ⟨cr.Members.insert client.Id client, client.Language, false⟩,
            Except.ok (i + k)) := by
  intro pool
  induction pool with
  | nil => intro i _ h; obtain ⟨cr, hcr, _⟩ := h; cases hcr
  | cons cr rest ih =>
    intro i hfree hex
    have hl := hfree cr (List.mem_cons_self _ _)
    by_cases hc : Eligible cr client
    · refine ⟨0, cr, List.getElem?_cons_zero, hc, ?_, ?_⟩
      · intro j cr' hj; exact absurd hj (Nat.not_lt_zero j)
      · rw [FindChatRoom.loop_cons_admitted cr rest i client hl hc, language_after_admission cr client hc]
        rfl
    · have hex' : ∃ c ∈ rest, Eligible c client := by
        obtain ⟨c, hmem, hel⟩ := hex
        rcases List.mem_cons.mp hmem with rfl | hmem'
        · exact absurd hel hc
        · exact ⟨c, hmem', hel⟩
      obtain ⟨k, crk, hget, hel, hmin, hloop⟩ :=
        ih (i + 1) (fun c hc' => hfree c (List.mem_cons_of_mem _ hc')) hex'
      refine ⟨k + 1, crk, by simpa using hget, hel, ?_, ?_⟩
      · intro j cr' hj hgetj
        cases j with
        | zero =>
          simp only [List.getElem?_cons_zero, Option.some.injEq] at hgetj
          rw [← hgetj]; exact hc
        | succ j =>
          rw [List.getElem?_cons_succ] at hgetj
          exact hmin j cr' (Nat.lt_of_succ_lt_succ hj) hgetj
      · rw [FindChatRoom.loop_cons_skip cr rest i client hl hc, hloop]
        simp only [Option.map_some', List.set_cons_succ, ChatRoom.eta_free cr hl]
        rw [Nat.add_assoc, Nat.add_comm 1 k]

theorem FindChatRoom.lowest_eligible (pool : List ChatRoom) (client : Client)
    (hfree : ∀ cr ∈ pool, cr.Lock = false) (hex : ∃ cr ∈ pool, Eligible cr client) :
    ∃ k cr, pool[k]? = some cr ∧ Eligible cr client ∧
      (∀ j cr', j < k → pool[j]? = some cr' → ¬ Eligible cr' client) ∧
      FindChatRoom pool client =
        some (pool.set k ⟨cr.Members.insert client.Id client, client.Language, false⟩,
          Except.ok k) := by
  obtain ⟨k, cr, hget, hel, hmin, hloop⟩ := FindChatRoom.loop_first_fit client pool 0 hfree hex
  refine ⟨k, cr, hget, hel, hmin, ?_⟩
  rw [FindChatRoom, hloop, Nat.zero_add]

/-- C4. `FindChatRoom` is first fit in pool index order.  With `Eligible` the
predicate "fewer than 2 members, and the room's language is the client's or `EMPTY`":
if some room is eligible, the call returns the index `k` of the lowest eligible room,
that room now holds the client under its `Id` and has the client's language, and every
other room is unchanged; if no room is eligible, the call returns the error and the
pool is unchanged.  (No mutex is held when the call starts.) -/
theorem FindChatRoom_first_fit (pool : List ChatRoom) (client : Client)
    (hfree : ∀ cr ∈ pool, cr.Lock = false) :
    ((∃ cr ∈ pool, Eligible cr client) →
      ∃ k cr, pool[k]? = some cr ∧ Eligible cr client ∧
        (∀ j cr', j < k → pool[j]? = some cr' → ¬ Eligible cr' client) ∧
        FindChatRoom pool client =
          some (pool.set k ⟨cr.Members.insert client.Id client, client.Language, false⟩,
            Except.ok k) ∧
        (cr.Members.insert client.Id client).lookup client.Id = some client) ∧
    ((∀ cr ∈ pool, ¬ Eligible cr client) →
      FindChatRoom pool client = some (pool, Except.error "could not find a chat room")) := by
  constructor
  · intro hex
    obtain ⟨k, cr, hget, hel, hmin, hfind⟩ := FindChatRoom.lowest_eligible pool client hfree hex
    exact ⟨k, cr, hget, hel, hmin, hfind, AList.lookup_insert _⟩
  · intro hno
    exact FindChatRoom.loop_none_eligible client pool 0 hfree hno

/-- First fit at a pool whose room 0 is full and whose room 1 is empty, and a client
declaring "fr". -/
theorem FindChatRoom_first_fit_witness :
    (∀ cr ∈ [roomAB, ⟨∅, EMPTY, false⟩], cr.Lock = false) ∧
    (((∃ cr ∈ [roomAB, ⟨∅, EMPTY, false⟩], Eligible cr clientD) →
      ∃ k cr, [roomAB, ⟨∅, EMPTY, false⟩][k]? = some cr ∧ Eligible cr clientD ∧
        (∀ j cr', j < k → [roomAB, ⟨∅, EMPTY, false⟩][j]? = some cr' →
          ¬ Eligible cr' clientD) ∧
        FindChatRoom [roomAB, ⟨∅, EMPTY, false⟩] clientD =
          some ([roomAB, ⟨∅, EMPTY, false⟩].set k
            ⟨cr.Members.insert clientD.Id clientD, clientD.Language, false⟩, Except.ok k) ∧
        (cr.Members.insert clientD.Id clientD).lookup clientD.Id = some clientD) ∧
    ((∀ cr ∈ [roomAB, ⟨∅, EMPTY, false⟩], ¬ Eligible cr clientD) →
      FindChatRoom [roomAB, ⟨∅, EMPTY, false⟩] clientD =
        some ([roomAB, ⟨∅, EMPTY, false⟩], Except.error "could not find a chat room"))) :=
  ⟨by decide, FindChatRoom_first_fit [roomAB, ⟨∅, EMPTY, false⟩] clientD (by decide)⟩

theorem entries_erase_single (m : MemberMap) (c : Client) (hone : m.entries.length = 1)
    (hmem : m.lookup c.Id = some c) : (m.erase c.Id).entries = [] := by
  obtain ⟨e, he⟩ := List.length_eq_one.mp hone
  have hin : (⟨c.Id, c⟩ : Sigma (fun _ : UUID => Client)) ∈ m.entries :=
    AList.mem_lookup_iff.mp (by rw [hmem]; exact rfl)
  rw [he, List.mem_singleton] at hin
  show List.kerase c.Id m.entries = []
  rw [he, ← hin]
  simp [List.kerase]

/-! ## C10: the scenario of the specification -/

/-- C10, as amended. In a pool of one empty room, with clients A, B, C declaring "en"
and D declaring "fr", of pairwise distinct ids: `FindChatRoom` for A returns room 0,
now of language "en" with 1 member; for B it returns room 0, now with 2 members; for C
it returns the error.  After `leave` of A room 0 still holds B and keeps the language
"en", and `FindChatRoom` for D returns the error.  After `leave` of B as well room 0
is empty with its language reset to `EMPTY`, and `FindChatRoom` for D returns room 0. -/
theorem scenario_trace (a b c d sa sb sc sd : Nat) (hids : [a, b, c, d].Nodup) :
    ∃ r1 r2 r3 r4 r5 : ChatRoom,
      FindChatRoom (initPool 1) ⟨a, "en", sa⟩ = some ([r1], Except.ok 0) ∧
      r1.Language = "en" ∧ r1.Members.entries.length = 1 ∧
      FindChatRoom [r1] ⟨b, "en", sb⟩ = some ([r2], Except.ok 0) ∧
      r2.Members.entries.length = 2 ∧
      FindChatRoom [r2] ⟨c, "en", sc⟩ = some ([r2], Except.error "could not find a chat room") ∧
      r2.leave ⟨a, "en", sa⟩ = some r3 ∧
      r3.Members.entries.length = 1 ∧ r3.Language = "en" ∧
      r3.Members.lookup b = some ⟨b, "en", sb⟩ ∧
      FindChatRoom [r3] ⟨d, "fr", sd⟩ = some ([r3], Except.error "could not find a chat room") ∧
      r3.leave ⟨b, "en", sb⟩ = some r4 ∧
      r4.Members.entries = [] ∧ r4.Language = EMPTY ∧
      FindChatRoom [r4] ⟨d, "fr", sd⟩ = some ([r5], Except.ok 0) ∧
      r5.Language = "fr" ∧ r5.Members.lookup d = some ⟨d, "fr", sd⟩ := by
  have hab : a ≠ b := by
    intro h; subst h; simp at hids
  have hba : b ≠ a := fun h => hab h.symm
  have e1 : (AList.insert a (⟨a, "en", sa⟩ : Client) (∅ : MemberMap)).entries =
      [⟨a, ⟨a, "en", sa⟩⟩] := rfl
  have e2 : (AList.insert b (⟨b, "en", sb⟩ : Client)
      (AList.insert a (⟨a, "en", sa⟩ : Client) (∅ : MemberMap))).entries =
      [⟨b, ⟨b, "en", sb⟩⟩, ⟨a, ⟨a, "en", sa⟩⟩] := by
    simp [AList.insert_entries, List.kerase, hba]
  have e3 : AList.erase a (AList.insert b (⟨b, "en", sb⟩ : Client)
      (AList.insert a (⟨a, "en", sa⟩ : Client) (∅ : MemberMap))) =
      AList.singleton b ⟨b, "en", sb⟩ := by
    apply AList.ext
    show List.kerase a _ = _
    rw [e2]
    simp [List.kerase, hab, AList.singleton]
  have e4 : AList.erase b (AList.singleton b (⟨b, "en", sb⟩ : Client)) = (∅ : MemberMap) := by
    apply AList.ext
    show List.kerase b _ = _
    simp [List.kerase, AList.singleton]
  have hen : ("en" : String) ≠ EMPTY := by decide
  have hfr : ¬ (("en" : String) = "fr" ∨ ("en" : String) = EMPTY) := by decide
  have herr : ∀ (cr : ChatRoom) (cl : Client), cr.Lock = false →
      ¬ (cr.Members.entries.length < MaxChatRoomSize ∧
        (cr.Language = cl.Language ∨ cr.Language = EMPTY)) →
      FindChatRoom [cr] cl = some ([cr], Except.error "could not find a chat room") := by
    intro cr cl hl hc
    exact FindChatRoom.loop_none_eligible cl [cr] 0 (by simpa using hl) (by simpa [Eligible] using hc)
  refine ⟨⟨AList.insert a ⟨a, "en", sa⟩ ∅, "en", false⟩,
    ⟨AList.insert b ⟨b, "en", sb⟩ (AList.insert a ⟨a, "en", sa⟩ ∅), "en", false⟩,
    ⟨AList.singleton b ⟨b, "en", sb⟩, "en", false⟩,
    ⟨∅, EMPTY, false⟩,
    ⟨AList.insert d ⟨d, "fr", sd⟩ ∅, "fr", false⟩, ?_, ?_, ?_, ?_, ?_, ?_, ?_, ?_, ?_, ?_, ?_, ?_, ?_, ?_, ?_, ?_, ?_⟩
  · rw [FindChatRoom, initPool, List.replicate_one,
      FindChatRoom.loop_cons_admitted _ _ _ _ rfl ⟨by decide, Or.inr rfl⟩]
    rfl
  · rfl
  · rfl
  · rw [FindChatRoom, FindChatRoom.loop_cons_admitted _ _ _ _ rfl
      ⟨by rw [e1]; exact Nat.lt_succ_self 1, Or.inl rfl⟩, if_neg hen]
  · rw [e2]; rfl
  · exact herr _ _ rfl (fun h => by rw [e2] at h; exact absurd h.1 (Nat.lt_irrefl 2))
  · rw [ChatRoom.leave_free _ _ rfl]
    simp only [e3]
    rfl
  · rfl
  · rfl
  · simp [AList.singleton, AList.lookup]
  · exact herr _ _ rfl (fun h => hfr h.2)
  · rw [ChatRoom.leave_free _ _ rfl]
    simp only [e4]
    rfl
  · rfl
  · rfl
  · rw [FindChatRoom, FindChatRoom.loop_cons_admitted _ _ _ _ rfl ⟨by decide, Or.inr rfl⟩]
    rfl
  · rfl
  · exact AList.lookup_insert _

/-- The amended scenario at the ids 1, 2, 3, 4. -/
theorem scenario_trace_witness :
    [1, 2, 3, 4].Nodup ∧
    ∃ r1 r2 r3 r4 r5 : ChatRoom,
      FindChatRoom (initPool 1) ⟨1, "en", 10⟩ = some ([r1], Except.ok 0) ∧
      r1.Language = "en" ∧ r1.Members.entries.length = 1 ∧
      FindChatRoom [r1] ⟨2, "en", 20⟩ = some ([r2], Except.ok 0) ∧
      r2.Members.entries.length = 2 ∧
      FindChatRoom [r2] ⟨3, "en", 30⟩ = some ([r2], Except.error "could not find a chat room") ∧
      r2.leave ⟨1, "en", 10⟩ = some r3 ∧
      r3.Members.entries.length = 1 ∧ r3.Language = "en" ∧
      r3.Members.lookup 2 = some ⟨2, "en", 20⟩ ∧
      FindChatRoom [r3] ⟨4, "fr", 40⟩ = some ([r3], Except.error "could not find a chat room") ∧
      r3.leave ⟨2, "en", 20⟩ = some r4 ∧
      r4.Members.entries = [] ∧ r4.Language = EMPTY ∧
      FindChatRoom [r4] ⟨4, "fr", 40⟩ = some ([r5], Except.ok 0) ∧
      r5.Language = "fr" ∧ r5.Members.lookup 4 = some ⟨4, "fr", 40⟩ :=
  ⟨by decide, scenario_trace 1 2 3 4 10 20 30 40 (by decide)⟩

/-- C10, as the specification states it, fails: after A and B were admitted to the
single room and C was refused, `leave` of A leaves B in room 0, so the room is not
empty, its language is still "en", and `FindChatRoom` for D declaring "fr" does not
return room 0. -/
theorem scenario_as_stated_fails :
    FindChatRoom (initPool 1) clientA = some ([roomA], Except.ok 0) ∧
    FindChatRoom [roomA] clientB = some ([roomAB], Except.ok 0) ∧
    FindChatRoom [roomAB] clientC = some ([roomAB], Except.error "could not find a chat room") ∧
    ¬ ∃ cr, roomAB.leave clientA = some cr ∧ cr.Members.entries = [] ∧ cr.Language = EMPTY ∧
        ∃ pool', FindChatRoom [cr] clientD = some (pool', Except.ok 0) := by
  refine ⟨by decide, by decide, by decide, ?_⟩
  rintro ⟨cr, hlv, hempty, _, _⟩
  have h := (ChatRoom.leave_eq_some hlv).2
  rw [h] at hempty
  revert hempty
  decide

/-! ## C9: an emptied room is reset -/

/-- C9. Empty-room reset: in a reachable pool, for a room whose only member is `c`,
`leave` of `c` returns, the room then has no members and language `EMPTY`, and it is
eligible for any client `d`, whatever `d` declares; `FindChatRoom` for `d` then
succeeds and returns that room or an eligible room of lower index. -/
theorem empty_room_reset (n : Nat) (pool : List ChatRoom) (h : Reachable n pool)
    (i : Nat) (cr : ChatRoom) (c d : Client) (hget : pool[i]? = some cr)
    (hone : cr.Members.entries.length = 1) (hmem : cr.Members.lookup c.Id = some c) :
    ∃ cr', cr.leave c = some cr' ∧ cr'.Members.entries = [] ∧ cr'.Language = EMPTY ∧
      Eligible cr' d ∧
      ∃ pool' j crj, FindChatRoom (pool.set i cr') d = some (pool', Except.ok j) ∧ j ≤ i ∧
        (pool.set i cr')[j]? = some crj ∧ Eligible crj d := by
  have hfree := ReachableOver.lock_free _ h
  have hl : cr.Lock = false := hfree cr (List.getElem?_mem hget)
  have hempty := entries_erase_single cr.Members c hone hmem
  have hi : i < pool.length := (List.getElem?_eq_some.mp hget).1
  refine ⟨_, ChatRoom.leave_free cr c hl, hempty, ?_, ?_, ?_⟩
  · simp [hempty]
  · exact ⟨by rw [hempty]; decide, Or.inr (by simp [hempty])⟩
  · have hel : Eligible (⟨cr.Members.erase c.Id,
        if (cr.Members.erase c.Id).entries.length = 0 then EMPTY else cr.Language, false⟩ :
        ChatRoom) d :=
      ⟨by rw [hempty]; decide, Or.inr (by simp [hempty])⟩
    have hget' : (pool.set i ⟨cr.Members.erase c.Id,
        if (cr.Members.erase c.Id).entries.length = 0 then EMPTY else cr.Language, false⟩)[i]? =
        some ⟨cr.Members.erase c.Id,
        if (cr.Members.erase c.Id).entries.length = 0 then EMPTY else cr.Language, false⟩ :=
      List.getElem?_set_self hi
    have hfree' : ∀ x ∈ pool.set i (⟨cr.Members.erase c.Id,
        if (cr.Members.erase c.Id).entries.length = 0 then EMPTY else cr.Language, false⟩ :
        ChatRoom), x.Lock = false := by
      intro x hx
      rcases List.mem_or_eq_of_mem_set hx with hx' | rfl
      · exact hfree x hx'
      · rfl
    obtain ⟨k, crk, hgk, helk, hmin, hfind⟩ :=
      FindChatRoom.lowest_eligible _ d hfree' ⟨_, List.getElem?_mem hget', hel⟩
    refine ⟨_, k, crk, hfind, ?_, hgk, helk⟩
    by_contra hlt
    exact hmin i _ (Nat.lt_of_not_le hlt) hget' hel

/-- The reset at the reachable pool whose single room holds `clientA` alone, with the
next client declaring "fr". -/
theorem empty_room_reset_witness :
    Reachable 1 [roomA] ∧ [roomA][0]? = some roomA ∧ roomA.Members.entries.length = 1 ∧
    roomA.Members.lookup clientA.Id = some clientA ∧
    ∃ cr', roomA.leave clientA = some cr' ∧ cr'.Members.entries = [] ∧ cr'.Language = EMPTY ∧
      Eligible cr' clientD ∧
      ∃ pool' j crj, FindChatRoom ([roomA].set 0 cr') clientD = some (pool', Except.ok j) ∧
        j ≤ 0 ∧ ([roomA].set 0 cr')[j]? = some crj ∧ Eligible crj clientD :=
  ⟨reachable_roomA, rfl, rfl, rfl,
    empty_room_reset 1 [roomA] reachable_roomA 0 roomA clientA clientD rfl rfl rfl⟩

/-! ## Broadcast and mailboxes -/

theorem foldl_chanSend_apply (message : Message) (q : Nat) :
    ∀ (l : List (Sigma (fun _ : UUID => Client))) (mb : Mailboxes),
      (l.foldl (fun acc v => chanSend acc v.2.Send message) mb) q =
        mb q ++ List.replicate ((l.map (fun e => e.2.Send)).count q) message := by
  intro l
  induction l with
  | nil => intro mb; simp
  | cons x xs ih =>
    intro mb
    rw [List.foldl_cons, ih, List.map_cons, List.count_cons]
    by_cases hq : q = x.2.Send
    · subst hq
      simp [chanSend, List.replicate_succ', List.replicate_succ]
      rw [← List.replicate_succ, List.replicate_succ']
    · have hq' : ¬ x.2.Send = q := fun h => hq h.symm
      simp [chanSend, hq, hq']

theorem ChatRoom.broadcast_free (cr : ChatRoom) (mb : Mailboxes) (message : Message)
    (hl : cr.Lock = false) :
    cr.broadcast mb message =
      some (cr, cr.Members.entries.foldl (fun acc v => chanSend acc v.2.Send message) mb) := by
  simp only [ChatRoom.broadcast, Mutex.Lock, hl, Mutex.Unlock]
  rw [ChatRoom.eta_free cr hl]
  rfl

theorem ChatRoom.broadcast_held (cr : ChatRoom) (mb : Mailboxes) (message : Message)
    (hl : cr.Lock = true) : cr.broadcast mb message = none := by
  simp [ChatRoom.broadcast, Mutex.Lock, hl]

/-- After `broadcast` every channel has received one copy of the message per member
that owns it. -/
theorem ChatRoom.broadcast_apply (cr : ChatRoom) (mb : Mailboxes) (message : Message)
    (hl : cr.Lock = false) :
    ∃ mb', cr.broadcast mb message = some (cr, mb') ∧
      ∀ q, mb' q = mb q ++ List.replicate (cr.channels.count q) message :=
  ⟨_, ChatRoom.broadcast_free cr mb message hl,
    fun q => foldl_chanSend_apply message q cr.Members.entries mb⟩

/-- With one channel per member, `broadcast` sends exactly one copy to every member,
whoever the sender of the message is. -/
theorem ChatRoom.broadcast_delivers (cr : ChatRoom) (mb : Mailboxes) (message : Message)
    (hl : cr.Lock = false) (hchan : cr.channels.Nodup) :
    ∃ mb', cr.broadcast mb message = some (cr, mb') ∧
      (∀ id m, cr.Members.lookup id = some m → mb' m.Send = mb m.Send ++ [message]) ∧
      ∀ q, q ∉ cr.channels → mb' q = mb q := by
  obtain ⟨mb', hb, hap⟩ := ChatRoom.broadcast_apply cr mb message hl
  refine ⟨mb', hb, ?_, ?_⟩
  · intro id m hm
    have hin : (⟨id, m⟩ : Sigma (fun _ : UUID => Client)) ∈ cr.Members.entries :=
      AList.mem_lookup_iff.mp (by rw [hm]; exact rfl)
    have hch : m.Send ∈ cr.channels := List.mem_map.mpr ⟨_, hin, rfl⟩
    rw [hap, List.count_eq_one_of_mem hchan hch]
    rfl
  · intro q hq
    rw [hap, List.count_eq_zero.mpr hq]
    simp

/-! ## C7: departure notice -/

/-- The cleanup when the mutex of the room is free: for a room in which `client` is a
member, each member owning its own channel, the cleanup of the connection (`leave`, then
`broadcast` of a message of kind `LeaveMessage` with `Sender = client.Id`) returns,
removes the client, enqueues exactly that one message into the mailbox of each member
that remains, and enqueues nothing into the mailbox of the leaving client. -/
theorem cleanup_departure_notice (cr : ChatRoom) (mb : Mailboxes) (client : Client)
    (now : Nat) (hl : cr.Lock = false) (hmem : cr.Members.lookup client.Id = some client)
    (hchan : cr.channels.Nodup) :
    ∃ cr' mb', handleConnection.cleanup cr mb client now = some (cr', mb') ∧
      cr'.Members = cr.Members.erase client.Id ∧
      (∀ id m, cr'.Members.lookup id = some m →
        mb' m.Send = mb m.Send ++ [⟨client.Id, now, "client left", LeaveMessage⟩]) ∧
      mb' client.Send = mb client.Send := by
  have hin : (⟨client.Id, client⟩ : Sigma (fun _ : UUID => Client)) ∈ cr.Members.entries :=
    AList.mem_lookup_iff.mp (by rw [hmem]; exact rfl)
  obtain ⟨b, l₁, l₂, _, hentries, herase⟩ :=
    List.exists_of_kerase (List.mem_keys_of_mem hin)
  have hb : b = client := by
    refine List.NodupKeys.eq_of_mk_mem cr.Members.nodupKeys ?_ hin
    rw [hentries]; simp
  subst hb
  have hchan' : (b.Send :: ((l₁ ++ l₂).map (fun e => e.2.Send))).Nodup := by
    have h := hchan
    rw [ChatRoom.channels, hentries, List.map_append, List.map_cons] at h
    rw [List.map_append]
    exact List.nodup_middle.mp h
  obtain ⟨hnot, hrest⟩ := List.nodup_cons.mp hchan'
  have hleave := ChatRoom.leave_free cr b hl
  obtain ⟨mb', hbc, hsend, hother⟩ := ChatRoom.broadcast_delivers
    ⟨cr.Members.erase b.Id,
      if (cr.Members.erase b.Id).entries.length = 0 then EMPTY else cr.Language, false⟩
    mb ⟨b.Id, now, "client left", LeaveMessage⟩ rfl
    (by show ((cr.Members.erase b.Id).entries.map (fun e => e.2.Send)).Nodup
        rw [show (cr.Members.erase b.Id).entries = List.kerase b.Id cr.Members.entries from rfl,
          herase]
        exact hrest)
  refine ⟨_, mb', ?_, rfl, hsend, ?_⟩
  · rw [handleConnection.cleanup, hleave]
    exact hbc
  · apply hother
    show b.Send ∉ (cr.Members.erase b.Id).entries.map (fun e => e.2.Send)
    rw [show (cr.Members.erase b.Id).entries = List.kerase b.Id cr.Members.entries from rfl,
      herase]
    exact hnot

/-- The departure of `clientA` from the room it shares with `clientB`, the mutex free. -/
theorem cleanup_departure_notice_witness :
    roomAB.Lock = false ∧ roomAB.Members.lookup clientA.Id = some clientA ∧
    roomAB.channels.Nodup ∧
    ∃ cr' mb', handleConnection.cleanup roomAB noMail clientA 9 = some (cr', mb') ∧
      cr'.Members = roomAB.Members.erase clientA.Id ∧
      (∀ id m, cr'.Members.lookup id = some m →
        mb' m.Send = noMail m.Send ++ [⟨clientA.Id, 9, "client left", LeaveMessage⟩]) ∧
      mb' clientA.Send = noMail clientA.Send :=
  ⟨rfl, by decide, by decide,
    cleanup_departure_notice roomAB noMail clientA 9 rfl (by decide) (by decide)⟩

/-- On a room whose mutex is held the cleanup never returns: `leave` waits for the mutex
on line 86, so the client is not removed and nothing is sent. -/
theorem handleConnection.cleanup_blocks (cr : ChatRoom) (mb : Mailboxes) (client : Client)
    (now : Nat) (hl : cr.Lock = true) :
    handleConnection.cleanup cr mb client now = none := by
  rw [handleConnection.cleanup, ChatRoom.leave_held cr client hl]

/-- C7, at a failing input. `clientA` is in room 0 and `clientB` is admitted to it.  The
handler of `clientB` takes the mutex on line 153 and never returns from the match step,
so the mutex stays held.  `clientA` then disconnects: its cleanup waits for the mutex in
`leave` and never returns, `clientA` stays a member, and no message of kind
`LeaveMessage` reaches the mailbox of `clientB`, the member that should be notified. -/
theorem departure_notice_blocked :
    FindChatRoom [roomA] clientB = some ([roomAB], Except.ok 0) ∧
    handleConnection.matchNoticeEntry roomAB = some roomABHeld ∧
    (handleConnection.matchNotice roomAB noMail clientB 9).isNone = true ∧
    roomABHeld.Members.lookup clientA.Id = some clientA ∧
    roomABHeld.Members.lookup clientB.Id = some clientB ∧
    (roomABHeld.leave clientA).isNone = true ∧
    (handleConnection.cleanup roomABHeld noMail clientA 9).isNone = true := by
  decide

/-! ## C5: relay of a chat message -/

/-- C5, at a failing input. `clientA` sends a chat message whose `Sender` is its own
`Id`.  The turn of the read loop hands it to `broadcast`, which enqueues it into the
mailbox of `clientA` itself, both when `clientA` is alone in its room and when it shares
the room with `clientB` (who receives it too); `broadcastMessage`, which skips the
sender, is not the function called. -/
theorem relay_echoes_to_sender :
    chatFromA.Sender = clientA.Id ∧ chatFromA.MessageType = ChatMessage ∧
    (handleConnection.readLoopIteration decodeChatFromA roomA noMail (some "hi")).map
        (fun r => (r.1, r.2.1, r.2.2 clientA.Send)) =
      some (true, roomA, [chatFromA]) ∧
    (handleConnection.readLoopIteration decodeChatFromA roomAB noMail (some "hi")).map
        (fun r => (r.1, r.2.1, r.2.2 clientA.Send, r.2.2 clientB.Send)) =
      some (true, roomAB, [chatFromA], [chatFromA]) ∧
    roomAB.broadcastMessage noMail chatFromA clientA.Send = [] ∧
    roomAB.broadcastMessage noMail chatFromA clientB.Send = [chatFromA] := by
  decide

/-- Whatever the decoder leaves in `message`, a turn of the read loop on a room with its
mutex free and one channel per member enqueues it once into the mailbox of every member,
the sender included, leaves the room as it was, and goes on to the next read. -/
theorem handleConnection.readLoopIteration_delivers (Unmarshal : String → Message × Bool)
    (cr : ChatRoom) (mb : Mailboxes) (msg : String) (hl : cr.Lock = false)
    (hchan : cr.channels.Nodup) :
    ∃ mb', handleConnection.readLoopIteration Unmarshal cr mb (some msg) = some (true, cr, mb') ∧
      ∀ id m, cr.Members.lookup id = some m →
        mb' m.Send = mb m.Send ++ [(Unmarshal msg).1] := by
  obtain ⟨mb', hb, hsend, _⟩ := ChatRoom.broadcast_delivers cr mb (Unmarshal msg).1 hl hchan
  refine ⟨mb', ?_, hsend⟩
  simp only [handleConnection.readLoopIteration, hb]

/-! ## C8: payloads that fail to decode -/

/-- C8, at a failing input. `clientA` is alone in its room and sends bytes that are not
JSON: the decoder reports an error and leaves the zero message.  The turn of the read
loop does not skip the broadcast: the zero message is enqueued into the mailbox of
`clientA`.  The room is unchanged and the loop goes on. -/
theorem malformed_payload_is_broadcast :
    (decodeFailure "not json").2 = true ∧
    (handleConnection.readLoopIteration decodeFailure roomA noMail (some "not json")).map
        (fun r => (r.1, r.2.1, r.2.2 clientA.Send)) =
      some (true, roomA, [Message.zero]) := by
  decide

/-! ## C6: match notice -/

/-- The match step on a room with more than one member never returns: it takes the mutex
and then calls `broadcast`, which waits for the same mutex. -/
theorem handleConnection.matchNotice_blocks (cr : ChatRoom) (mb : Mailboxes)
    (client : Client) (now : Nat) (hmany : cr.Members.entries.length > 1) :
    handleConnection.matchNotice cr mb client now = none := by
  cases hl : cr.Lock with
  | true => simp [handleConnection.matchNotice, Mutex.Lock, hl]
  | false =>
    simp [handleConnection.matchNotice, Mutex.Lock, hl, hmany, ChatRoom.broadcast]

/-- The match step on a room with at most one member and its mutex free returns and
sends nothing. -/
theorem handleConnection.matchNotice_single (cr : ChatRoom) (mb : Mailboxes)
    (client : Client) (now : Nat) (hl : cr.Lock = false)
    (hone : cr.Members.entries.length ≤ 1) :
    handleConnection.matchNotice cr mb client now = some (cr, mb) := by
  have h : ¬ cr.Members.entries.length > 1 := Nat.not_lt.mpr hone
  simp [handleConnection.matchNotice, Mutex.Lock, hl, h, Mutex.Unlock]
  exact ChatRoom.eta_free cr hl

/-- C6, at a failing input. `clientB` has just been admitted to the room of `clientA`, so
the room has two members and its mutex is free.  The match step does not complete and
no message of kind `MatchMessage` reaches any mailbox; with `clientA` alone the step
completes and sends nothing. -/
theorem match_notice_deadlocks :
    roomAB.Members.entries.length = 2 ∧ roomAB.Lock = false ∧
    (handleConnection.matchNotice roomAB noMail clientB 9).isNone = true ∧
    (handleConnection.matchNotice roomA noMail clientA 9).map
        (fun r => (r.1, r.2 clientA.Send)) = some (roomA, []) := by
  decide

/-! ## C2 and C3: a client that declares the string "empty" -/

theorem reachable_roomE : Reachable 1 [roomE] :=
  ReachableOver.find (initPool 1) [roomE] (Except.ok 0) clientE ReachableOver.init trivial
    (by decide)

theorem reachable_roomED : Reachable 1 [roomED] :=
  ReachableOver.find [roomE] [roomED] (Except.ok 0) clientD reachable_roomE trivial (by decide)

/-- C2, at a failing input. A client declaring "empty" is admitted to the empty room;
the room keeps the language `EMPTY`, so a client declaring "fr" is admitted next and the
room takes the language "fr" while it still holds the first client. -/
theorem coherence_fails_for_sentinel :
    Reachable 1 [roomED] ∧ roomED.Members.entries ≠ [] ∧
    roomED.Members.lookup clientE.Id = some clientE ∧ clientE.Language ≠ roomED.Language :=
  ⟨reachable_roomED, by decide, by decide, by decide⟩

/-- C3, at a failing input. After a client declaring "empty" is admitted to the empty
room, the room has the language `EMPTY` and one member. -/
theorem unassigned_nonempty_for_sentinel :
    Reachable 1 [roomE] ∧ roomE.Language = EMPTY ∧ roomE.Members.entries.length = 1 :=
  ⟨reachable_roomE, by decide, by decide⟩

theorem lookup_some_entries_ne_nil {m : MemberMap} {id : UUID} {c : Client}
    (h : m.lookup id = some c) : m.entries ≠ [] := by
  have hin : (⟨id, c⟩ : Sigma (fun _ : UUID => Client)) ∈ m.entries :=
    AList.mem_lookup_iff.mp (by rw [h]; exact rfl)
  exact List.ne_nil_of_mem hin

/-- When no client passed to `FindChatRoom` declares the string "empty", every room of
every reachable pool has the language `EMPTY` exactly when it has no member, and every
member of a room declares the language of the room. -/
theorem invariants_without_sentinel (n : Nat) (pool : List ChatRoom)
    (h : ReachableOver (fun c => c.Language ≠ EMPTY) n pool) :
    ∀ cr ∈ pool, (cr.Language = EMPTY ↔ cr.Members.entries = []) ∧
      ∀ id m, cr.Members.lookup id = some m → m.Language = cr.Language := by
  refine ReachableOver.forall_rooms _
    (fun cr => (cr.Language = EMPTY ↔ cr.Members.entries = []) ∧
      ∀ id m, cr.Members.lookup id = some m → m.Language = cr.Language) ?_ ?_ ?_ h
  · exact ⟨⟨fun _ => rfl, fun _ => rfl⟩, fun id m hm => by cases hm⟩
  · intro client cr cr' hadm hcr hstep
    rcases hstep with rfl | rfl | ⟨_, hlang, rfl⟩
    · exact hcr
    · exact hcr
    · have hne : (if cr.Language = EMPTY then client.Language else cr.Language) ≠ EMPTY := by
        split_ifs with he
        · exact hadm
        · exact he
      refine ⟨⟨fun he => absurd he hne, fun he => ?_⟩, ?_⟩
      · rw [AList.insert_entries] at he
        cases he
      · intro id m hm
        by_cases hid : id = client.Id
        · subst hid
          rw [AList.lookup_insert] at hm
          cases hm
          exact (language_after_admission cr client ⟨by assumption, hlang⟩).symm
        · rw [AList.lookup_insert_ne hid] at hm
          have hnil := lookup_some_entries_ne_nil hm
          have he : cr.Language ≠ EMPTY := fun he => hnil (hcr.1.mp he)
          show m.Language = if cr.Language = EMPTY then client.Language else cr.Language
          rw [if_neg he]
          exact hcr.2 id m hm
  · intro client cr cr' hcr hlv
    rw [(ChatRoom.leave_eq_some hlv).2]
    by_cases hempty : (cr.Members.erase client.Id).entries.length = 0
    · refine ⟨⟨fun _ => List.length_eq_zero.mp hempty, fun _ => by simp [hempty]⟩, ?_⟩
      intro id m hm
      exact absurd (List.length_eq_zero.mp hempty) (lookup_some_entries_ne_nil hm)
    · have hne : (cr.Members.erase client.Id).entries ≠ [] :=
        fun he => hempty (by rw [he]; rfl)
      have hne' : cr.Members.entries ≠ [] := by
        intro he
        apply hne
        show List.kerase client.Id cr.Members.entries = []
        rw [he]; rfl
      have hL : cr.Language ≠ EMPTY := fun he => hne' (hcr.1.mp he)
      refine ⟨⟨fun he => ?_, fun he => absurd he hne⟩, ?_⟩
      · simp only [if_neg hempty] at he
        exact absurd he hL
      · intro id m hm
        simp only [if_neg hempty]
        have hid : id ≠ client.Id := by
          intro hid
          subst hid
          simp only [AList.lookup_erase] at hm
          cases hm
        simp only [AList.lookup_erase_ne hid] at hm
        exact hcr.2 id m hm

end WebsocketChat
